import Mathlib

/-
  Verification of the hurl request/response pipeline core.

  Shallow embedding of the Rust sources:
    src/domain/value_objects.rs        (Url, JsonBody)
    src/domain/entities.rs             (Method, Request, Response)
    src/application/services.rs        (HttpRequestService, RequestValidator)
    src/application/builders/request_builder.rs (RequestBuilder)
    src/infrastructure/http_client.rs  (HyperHttpClient, adapters)

  Errors are modelled as strings carrying the messages built with anyhow in
  the source.  The injected transport (Box dyn HttpClient) is modelled as an
  explicit function argument; transport call counts are returned alongside
  results so that claims about the number of network calls are statable.
  String manipulation is modelled with structural helpers over the character
  list of a string so that every definition evaluates by decide.
-/

set_option maxRecDepth 4000

/-- Error values: the anyhow error messages of the source. -/
abbrev Err := String

instance {ε α : Type} [DecidableEq ε] [DecidableEq α] : DecidableEq (Except ε α) :=
  fun x y =>
    match x, y with
    | .ok a, .ok b =>
      if h : a = b then isTrue (by rw [h]) else isFalse (by intro hh; cases hh; exact h rfl)
    | .error a, .error b =>
      if h : a = b then isTrue (by rw [h]) else isFalse (by intro hh; cases hh; exact h rfl)
    | .ok _, .error _ => isFalse (by intro h; cases h)
    | .error _, .ok _ => isFalse (by intro h; cases h)

/-- Structural model of str::starts_with on the pattern and subject
character lists. -/
def leadsWith : List Char → List Char → Bool
  | [], _ => true
  | _ :: _, [] => false
  | p :: ps, c :: cs => p = c && leadsWith ps cs

/-- Models Rust str::starts_with for string patterns. -/
def strStartsWith (s pre : String) : Bool :=
  leadsWith pre.data s.data

/-- Models Rust str::is_empty. -/
def strIsEmpty (s : String) : Bool :=
  s.data.isEmpty

/-- Drops leading whitespace characters from a character list. -/
def dropWs : List Char → List Char
  | [] => []
  | c :: cs => if c.isWhitespace then dropWs cs else c :: cs

/-- Models Rust str::trim (restricted to the ASCII whitespace the inputs of
this development use). -/
def strTrim (s : String) : String :=
  ⟨(dropWs (dropWs s.data).reverse).reverse⟩

/-- Models Rust str::to_uppercase (ASCII fragment). -/
def strToUpper (s : String) : String :=
  ⟨s.data.map Char.toUpper⟩

/-- Domain Method enum, src/domain/entities.rs lines 8 to 16. -/
inductive Method where
  | get
  | post
  | put
  | delete
  | patch
  | head
  | options
deriving DecidableEq, Repr

/-- Method::from_str, src/domain/entities.rs lines 21 to 32: case-insensitive
parse of the method name. -/
def Method.from_str (s : String) : Except Err Method :=
  match strToUpper s with
  | "GET" => .ok .get
  | "POST" => .ok .post
  | "PUT" => .ok .put
  | "DELETE" => .ok .delete
  | "PATCH" => .ok .patch
  | "HEAD" => .ok .head
  | "OPTIONS" => .ok .options
  | other => .error ("Unsupported HTTP method: " ++ other)

/-- Model of hyper http::Uri as the record of the accessors the source
reads: scheme_str, host, port_u16, authority, to_string. -/
structure Uri where
  scheme : Option String
  host : Option String
  port : Option Nat
  authority : Option String
  str : String
deriving DecidableEq, Repr

/-- Url value object, src/domain/value_objects.rs line 7: a wrapped Uri. -/
structure Url where
  uri : Uri
deriving DecidableEq, Repr

/-- Url::as_str, src/domain/value_objects.rs lines 25 to 27: the string form
of the wrapped Uri. -/
def Url.as_str (u : Url) : String :=
  u.uri.str

/-- JsonBody value object, src/domain/value_objects.rs line 32: a wrapped
string. -/
structure JsonBody where
  raw : String
deriving DecidableEq, Repr

/-- Request entity, src/domain/entities.rs lines 37 to 42. -/
structure Request where
  method : Method
  url : Url
  headers : List (String × String)
  body : Option JsonBody
deriving DecidableEq, Repr

/-- Response entity, src/domain/entities.rs lines 46 to 49; the status code
is modelled as a natural number. -/
structure Response where
  status : Nat
  body : String
deriving DecidableEq, Repr

/-- RequestValidator::validate_url, src/application/services.rs lines 72
to 82. -/
def RequestValidator.validate_url (url : Url) : Except Err Unit :=
  let url_str := url.as_str
  if strIsEmpty url_str then
    .error "URL cannot be empty"
  else if !(strStartsWith url_str "http://") && !(strStartsWith url_str "https://") then
    .error "URL must start with http:// or https://"
  else
    .ok ()

/-- RequestValidator::validate_method_body_combination,
src/application/services.rs lines 84 to 93. -/
def RequestValidator.validate_method_body_combination (request : Request) : Except Err Unit :=
  match request.method, request.body with
  | .get, some _ => .error "GET requests should not have a body"
  | _, _ => .ok ()

/-- RequestValidator::validate, src/application/services.rs lines 66 to 70:
the URL rule, then the method and body rule. -/
def RequestValidator.validate (request : Request) : Except Err Unit := do
  RequestValidator.validate_url request.url
  RequestValidator.validate_method_body_combination request

/-
  HttpRequestService, src/application/services.rs lines 13 to 59.
  The injected transport is an explicit function argument.  Each operation
  returns the result together with the number of transport send calls made,
  so that claims about network side effects are statable.
-/

/-- HttpRequestService::send_request, src/application/services.rs lines 23
to 26: validate, then a single transport send.  Second component counts the
transport calls. -/
def HttpRequestService.send_request (send : Request → Except Err Response)
    (request : Request) : Except Err Response × Nat :=
  match RequestValidator.validate request with
  | .error e => (.error e, 0)
  | .ok () => (send request, 1)

/-- The retry loop of send_with_retry, src/application/services.rs lines 32
to 38.  The source iterates attempt over 0 ..= max_retries and exits when
attempt equals max_retries; here the loop carries the current attempt index
and the remaining retries, with remaining = max_retries - attempt, so the
exit test attempt == max_retries is remaining == 0.  The transport is a
function of the attempt index, modelling a stateful mock client.  Second
component counts the transport calls. -/
def HttpRequestService.retryLoop (send : Nat → Except Err Response) :
    Nat → Nat → Except Err Response × Nat
  | attempt, 0 =>
    match send attempt with
    | .ok response => (.ok response, 1)
    | .error e => (.error e, 1)
  | attempt, rem + 1 =>
    match send attempt with
    | .ok response => (.ok response, 1)
    | .error _ =>
      let p := HttpRequestService.retryLoop send (attempt + 1) rem
      (p.1, p.2 + 1)

/-- HttpRequestService::send_with_retry, src/application/services.rs lines
29 to 41: validate once, then up to max_retries + 1 transport attempts. -/
def HttpRequestService.send_with_retry (send : Nat → Request → Except Err Response)
    (request : Request) (max_retries : Nat) : Except Err Response × Nat :=
  match RequestValidator.validate request with
  | .error e => (.error e, 0)
  | .ok () => HttpRequestService.retryLoop (fun n => send n request) 0 max_retries

/-- The validation pass of send_batch, src/application/services.rs lines 45
to 47: validate each request in order, returning the first error. -/
def HttpRequestService.validateAll : List Request → Except Err Unit
  | [] => .ok ()
  | request :: rest =>
    match RequestValidator.validate request with
    | .error e => .error e
    | .ok () => HttpRequestService.validateAll rest

/-- The first error among the dispatched results, scanned in the given
completion order (a list of indices into the result vector).  Models the
error selection of futures try_join_all, whose failing future is the first
to complete with an error. -/
def firstErrorIn (results : List (Except Err Response)) : List Nat → Option Err
  | [] => none
  | i :: rest =>
    match results.get? i with
    | some (.error e) => some e
    | _ => firstErrorIn results rest

/-- Collects an all-success result vector, in input order. -/
def collectOk : List (Except Err Response) → Except Err (List Response)
  | [] => .ok []
  | .ok r :: rest => (collectOk rest).map (fun rs => r :: rs)
  | .error e :: _ => .error e

/-- Models futures::future::try_join_all over already-determined per-request
results: if any dispatched send failed, the error of the first failure in
completion order is returned; otherwise the responses are returned in input
order. -/
def tryJoinAll (results : List (Except Err Response)) (completionOrder : List Nat) :
    Except Err (List Response) :=
  match firstErrorIn results completionOrder with
  | some e => .error e
  | none => collectOk results

/-- HttpRequestService::send_batch, src/application/services.rs lines 44 to
54: validate every request up front, then dispatch all sends and join them.
completionOrder abstracts the order in which the concurrent sends complete.
Second component counts the transport calls. -/
def HttpRequestService.send_batch (send : Request → Except Err Response)
    (completionOrder : List Nat) (requests : List Request) :
    Except Err (List Response) × Nat :=
  match HttpRequestService.validateAll requests with
  | .error e => (.error e, 0)
  | .ok () => (tryJoinAll (requests.map send) completionOrder, requests.length)

/-
  RequestBuilder, src/application/builders/request_builder.rs.
  The headers field is a HashMap of String to String in the source; it is
  modelled as an association list with at most one entry per key, where
  insert replaces the value of an existing key in place.  The iteration
  order of a Rust HashMap is unspecified, so theorems below state only
  order-independent facts about the entry list.
-/

/-- Models HashMap::insert: replace the value of an existing key, else
append a new entry. -/
def hashMapInsert (m : List (String × String)) (k v : String) :
    List (String × String) :=
  if m.any (fun p => p.1 = k) then
    m.map (fun p => if p.1 = k then (k, v) else p)
  else
    m ++ [(k, v)]

/-- Models str::splitn(2, colon) as used at request_builder.rs line 36:
split at the first colon, if any. -/
def splitFirstColon : List Char → Option (List Char × List Char)
  | [] => none
  | c :: rest =>
    if c = ':' then some ([], rest)
    else
      match splitFirstColon rest with
      | none => none
      | some (a, b) => some (c :: a, b)

/-- RequestBuilder state, request_builder.rs lines 7 to 12. -/
structure RequestBuilder where
  method : Option Method
  url : Option Url
  headers : List (String × String)
  body : Option JsonBody
deriving DecidableEq, Repr

/-- RequestBuilder::new, request_builder.rs lines 15 to 22. -/
def RequestBuilder.new : RequestBuilder :=
  { method := none, url := none, headers := [], body := none }

/-- The header loop of RequestBuilder::headers, request_builder.rs lines 35
to 45: each raw entry is split at the first colon; entries with no colon are
rejected; both parts are trimmed and inserted into the map. -/
def RequestBuilder.addHeaders (m : List (String × String)) :
    List String → Except Err (List (String × String))
  | [] => .ok m
  | raw :: rest =>
    match splitFirstColon raw.data with
    | none =>
      .error ("Invalid header format: " ++ raw ++ ". Use Key: Value")
    | some (k, v) =>
      RequestBuilder.addHeaders (hashMapInsert m (strTrim ⟨k⟩) (strTrim ⟨v⟩)) rest

/-- RequestBuilder::headers, request_builder.rs lines 34 to 47 (named
withHeaders because the structure field is already named headers). -/
def RequestBuilder.withHeaders (b : RequestBuilder) (raw_headers : List String) :
    Except Err RequestBuilder :=
  match RequestBuilder.addHeaders b.headers raw_headers with
  | .error e => .error e
  | .ok m => .ok { b with headers := m }

/-- RequestBuilder::method, request_builder.rs lines 24 to 27 (named
withMethod because the structure field is already named method). -/
def RequestBuilder.withMethod (b : RequestBuilder) (method : String) :
    Except Err RequestBuilder :=
  match Method.from_str method with
  | .error e => .error e
  | .ok m => .ok { b with method := some m }

/-- RequestBuilder::build, request_builder.rs lines 56 to 63.  The source
panics when method or url is missing; that panic case is modelled with
Option. -/
def RequestBuilder.build (b : RequestBuilder) : Option Request :=
  match b.method, b.url with
  | some m, some u =>
    some { method := m, url := u, headers := b.headers, body := b.body }
  | _, _ => none

/-
  Infrastructure adapters, src/infrastructure/http_client.rs lines 199
  to 298.  The hyper wire request is modelled as a record; the hyper header
  map of the request builder appends entries in insertion order, which the
  header list models directly.
-/

/-- Wire-level request produced by the adapters. -/
structure HyperRequest where
  method : String
  uri : Uri
  headers : List (String × String)
  body : String
deriving DecidableEq, Repr

/-- MethodAdapter::to_hyper_method, http_client.rs lines 249 to 259. -/
def MethodAdapter.to_hyper_method : Method → String
  | .get => "GET"
  | .post => "POST"
  | .put => "PUT"
  | .delete => "DELETE"
  | .patch => "PATCH"
  | .head => "HEAD"
  | .options => "OPTIONS"

/-- BodyAdapter::to_hyper_body, http_client.rs lines 266 to 271: the exact
stored bytes when a body is present, the empty body otherwise. -/
def BodyAdapter.to_hyper_body : Option JsonBody → String
  | some json_body => json_body.raw
  | none => ""

/-- HeaderAdapter::add_json_content_type, http_client.rs lines 278 to 287:
appends the JSON content type header exactly when a body is present. -/
def HeaderAdapter.add_json_content_type (headers : List (String × String))
    (body : Option JsonBody) : List (String × String) :=
  match body with
  | some _ => headers ++ [("content-type", "application/json")]
  | none => headers

/-- HeaderAdapter::add_headers, http_client.rs lines 289 to 297: appends
every caller header, in order, duplicates kept. -/
def HeaderAdapter.add_headers (builderHeaders : List (String × String))
    (headers : List (String × String)) : List (String × String) :=
  builderHeaders ++ headers

/-- The Host header block of to_hyper_request, http_client.rs lines 210 to
212: present exactly when the URI has an authority. -/
def hostHeader (uri : Uri) : List (String × String) :=
  match uri.authority with
  | some a => [("host", a)]
  | none => []

/-- RequestAdapter::to_hyper_request, http_client.rs lines 203 to 220: Host
header first, then the conditional content type header, then the caller
headers, with the adapted body. -/
def RequestAdapter.to_hyper_request (domain_request : Request) : HyperRequest :=
  { method := MethodAdapter.to_hyper_method domain_request.method
  , uri := domain_request.url.uri
  , headers := HeaderAdapter.add_headers
      (HeaderAdapter.add_json_content_type (hostHeader domain_request.url.uri)
        domain_request.body)
      domain_request.headers
  , body := BodyAdapter.to_hyper_body domain_request.body }

/-- Port resolution of HyperHttpClient::create_connection, http_client.rs
lines 25 to 31: the explicit port when present, else 443 for scheme https
and 80 otherwise. -/
def resolvePort (uri : Uri) : Nat :=
  match uri.port with
  | some p => p
  | none => if uri.scheme = some "https" then 443 else 80

/-- HyperHttpClient::create_connection, http_client.rs lines 23 to 78: the
host check precedes any connection attempt; TCP connect, optional TLS, and
the HTTP handshake are abstracted into the connect oracle.  Second
component counts the connection attempts. -/
def HyperHttpClient.create_connection (connect : String → Nat → Except Err Unit)
    (uri : Uri) : Except Err Unit × Nat :=
  match uri.host with
  | none => (.error "No host in URI", 0)
  | some host => (connect host (resolvePort uri), 1)

/-
  JSON validity, modelling the call serde_json::from_str::<Value> at
  src/domain/value_objects.rs line 44.  serde_json is a dependency, not
  part of this repository, so its grammar is modelled from the spec
  (RFC 8259): ws value ws, with objects, arrays, strings with escape and
  surrogate-pair rules, numbers, and the three literals.  The parser is
  fueled; the fuel passed by isValidJson is an upper bound on the call
  depth, which grows at most twice as fast as the consumed input.
-/

/-- Left brace character, written by code to keep string literals plain. -/
def lbrace : Char := Char.ofNat 123

/-- Right brace character. -/
def rbrace : Char := Char.ofNat 125

/-- Skips the JSON whitespace characters: space, tab, line feed, carriage
return. -/
def skipWs : List Char → List Char
  | [] => []
  | c :: cs =>
    if c = ' ' ∨ c = '\t' ∨ c = '\n' ∨ c = '\r' then skipWs cs else c :: cs

/-- Numeric value of a hexadecimal digit. -/
def hexVal (c : Char) : Option Nat :=
  if '0' ≤ c ∧ c ≤ '9' then some (c.toNat - 48)
  else if 'a' ≤ c ∧ c ≤ 'f' then some (c.toNat - 87)
  else if 'A' ≤ c ∧ c ≤ 'F' then some (c.toNat - 55)
  else none

/-- Matches an exact character sequence. -/
def expectChars : List Char → List Char → Option (List Char)
  | [], cs => some cs
  | p :: ps, c :: cs => if p = c then expectChars ps cs else none
  | _ :: _, [] => none

/-- Parses the remainder of a JSON string after the opening quote: plain
characters at or above 0x20, the simple escapes, and hex escapes with the
surrogate-pair pairing rule. -/
def parseStringRest : List Char → Option (List Char)
  | [] => none
  | c :: rest =>
    if c = '"' then some rest
    else if c = '\\' then
      match rest with
      | [] => none
      | e :: rest2 =>
        if e = '"' ∨ e = '\\' ∨ e = '/' ∨ e = 'b' ∨ e = 'f' ∨ e = 'n' ∨ e = 'r' ∨ e = 't' then
          parseStringRest rest2
        else if e = 'u' then
          match rest2 with
          | h1 :: h2 :: h3 :: h4 :: rest3 =>
            match hexVal h1, hexVal h2, hexVal h3, hexVal h4 with
            | some a, some b, some cc, some d =>
              let v := ((a * 16 + b) * 16 + cc) * 16 + d
              if 0xD800 ≤ v ∧ v ≤ 0xDBFF then
                match rest3 with
                | s1 :: s2 :: g1 :: g2 :: g3 :: g4 :: rest4 =>
                  if s1 = '\\' ∧ s2 = 'u' then
                    match hexVal g1, hexVal g2, hexVal g3, hexVal g4 with
                    | some a2, some b2, some c2, some d2 =>
                      let w := ((a2 * 16 + b2) * 16 + c2) * 16 + d2
                      if 0xDC00 ≤ w ∧ w ≤ 0xDFFF then parseStringRest rest4
                      else none
                    | _, _, _, _ => none
                  else none
                | _ => none
              else if 0xDC00 ≤ v ∧ v ≤ 0xDFFF then none
              else parseStringRest rest3
            | _, _, _, _ => none
          | _ => none
        else none
    else if c.toNat < 0x20 then none
    else parseStringRest rest

/-- Drops a leading run of decimal digits. -/
def digitsMunch : List Char → List Char
  | [] => []
  | c :: cs => if c.isDigit then digitsMunch cs else c :: cs

/-- Parses the optional fraction and exponent parts of a JSON number. -/
def parseFracExp (cs : List Char) : Option (List Char) :=
  let afterFrac : Option (List Char) :=
    match cs with
    | '.' :: r =>
      match r with
      | c :: r2 => if c.isDigit then some (digitsMunch r2) else none
      | [] => none
    | _ => some cs
  match afterFrac with
  | none => none
  | some cs2 =>
    match cs2 with
    | e :: r =>
      if e = 'e' ∨ e = 'E' then
        let r2 := match r with
          | s :: r3 => if s = '+' ∨ s = '-' then r3 else r
          | [] => r
        match r2 with
        | c :: r4 => if c.isDigit then some (digitsMunch r4) else none
        | [] => none
      else some cs2
    | [] => some cs2

/-- Parses a JSON number: optional minus, an integer part that is zero or
starts with a nonzero digit, then fraction and exponent. -/
def parseNumber (cs : List Char) : Option (List Char) :=
  let cs1 := match cs with
    | c :: r => if c = '-' then r else cs
    | [] => cs
  match cs1 with
  | c :: r =>
    if c = '0' then parseFracExp r
    else if c.isDigit then parseFracExp (digitsMunch r)
    else none
  | [] => none

mutual

/-- Modelled from the spec: the value grammar of serde_json from_str, which
is not part of this repository, following RFC 8259.  Parses one JSON value
and returns the unconsumed suffix. -/
def parseValue : Nat → List Char → Option (List Char)
  | 0, _ => none
  | _ + 1, [] => none
  | fuel + 1, c :: rest =>
    if c = 'n' then expectChars ['u', 'l', 'l'] rest
    else if c = 't' then expectChars ['r', 'u', 'e'] rest
    else if c = 'f' then expectChars ['a', 'l', 's', 'e'] rest
    else if c = '"' then parseStringRest rest
    else if c = lbrace then parseObjectFirst fuel (skipWs rest)
    else if c = '[' then parseArrayFirst fuel rest
    else if c = '-' ∨ c.isDigit then parseNumber (c :: rest)
    else none

/-- Parses an object after the opening brace and leading whitespace: the
closing brace, or the first member. -/
def parseObjectFirst : Nat → List Char → Option (List Char)
  | 0, _ => none
  | _ + 1, [] => none
  | fuel + 1, c :: rest =>
    if c = rbrace then some rest
    else if c = '"' then
      match parseStringRest rest with
      | none => none
      | some afterKey =>
        match skipWs afterKey with
        | ':' :: afterColon =>
          match parseValue fuel (skipWs afterColon) with
          | none => none
          | some afterVal => parseObjectRest fuel (skipWs afterVal)
        | _ => none
    else none

/-- Parses the continuation of an object after a member: the closing brace,
or a comma followed by another member. -/
def parseObjectRest : Nat → List Char → Option (List Char)
  | 0, _ => none
  | _ + 1, [] => none
  | fuel + 1, c :: rest =>
    if c = rbrace then some rest
    else if c = ',' then
      match skipWs rest with
      | q :: afterQ =>
        if q = '"' then
          match parseStringRest afterQ with
          | none => none
          | some afterKey =>
            match skipWs afterKey with
            | ':' :: afterColon =>
              match parseValue fuel (skipWs afterColon) with
              | none => none
              | some afterVal => parseObjectRest fuel (skipWs afterVal)
            | _ => none
        else none
      | [] => none
    else none

/-- Parses an array after the opening bracket: the closing bracket, or the
first element. -/
def parseArrayFirst : Nat → List Char → Option (List Char)
  | 0, _ => none
  | fuel + 1, cs =>
    match skipWs cs with
    | [] => none
    | c :: rest =>
      if c = ']' then some rest
      else
        match parseValue fuel (c :: rest) with
        | none => none
        | some afterVal => parseArrayRest fuel (skipWs afterVal)

/-- Parses the continuation of an array after an element: the closing
bracket, or a comma followed by another element. -/
def parseArrayRest : Nat → List Char → Option (List Char)
  | 0, _ => none
  | _ + 1, [] => none
  | fuel + 1, c :: rest =>
    if c = ']' then some rest
    else if c = ',' then
      match parseValue fuel (skipWs rest) with
      | none => none
      | some afterVal => parseArrayRest fuel (skipWs afterVal)
    else none

end

/-- Modelled from the spec: validity of a whole string under serde_json
from_str, which is not part of this repository — whitespace, one value,
whitespace, end of input. -/
def isValidJson (s : String) : Bool :=
  match parseValue (2 * s.data.length + 16) (skipWs s.data) with
  | some rest => (skipWs rest).isEmpty
  | none => false

/-- JsonBody::new, src/domain/value_objects.rs lines 43 to 47: validate the
text with the JSON parser, discard the parsed value, and store the input
unchanged. -/
def JsonBody.new (json : String) : Except Err JsonBody :=
  if isValidJson json then .ok ⟨json⟩ else .error "Invalid JSON"

/-- The last value supplied for a given header name in a raw header list:
the value part of the last entry whose trimmed key equals the name. -/
def lastValueFor : List String → String → Option String
  | [], _ => none
  | raw :: rest, k =>
    match lastValueFor rest k with
    | some v => some v
    | none =>
      match splitFirstColon raw.data with
      | some (a, b) => if strTrim ⟨a⟩ = k then some (strTrim ⟨b⟩) else none
      | none => none

/-- Concrete Uri for witnesses: https example.com with no explicit port. -/
def sampleUri : Uri :=
  { scheme := some "https", host := some "example.com", port := none
  , authority := some "example.com", str := "https://example.com/" }

/-- Concrete valid request for witnesses, as in the service tests. -/
def sampleRequest : Request :=
  { method := .get, url := ⟨sampleUri⟩, headers := [], body := none }

/-- Concrete response for witnesses. -/
def sampleResponse : Response :=
  { status := 200, body := "test response" }

/-- Second concrete valid request for witnesses: a POST with a body. -/
def sampleRequest2 : Request :=
  { method := .post
  , url := ⟨{ scheme := some "http", host := some "example.org", port := none
            , authority := some "example.org", str := "http://example.org/" }⟩
  , headers := [], body := some ⟨"1"⟩ }

/-- Concrete invalid request for witnesses: an empty URL. -/
def emptyUrlRequest : Request :=
  { method := .get
  , url := ⟨{ scheme := none, host := none, port := none, authority := none, str := "" }⟩
  , headers := [], body := none }

/-- Transport double for witnesses: fails on the first attempt, succeeds on
every later attempt. -/
def flakySend : Nat → Request → Except Err Response :=
  fun i _ => if i = 0 then .error "Network error" else .ok sampleResponse

/-
  Theorems.
-/

theorem validate_as_bind (r : Request) :
    RequestValidator.validate r =
      (RequestValidator.validate_url r.url).bind
        (fun _ => RequestValidator.validate_method_body_combination r) := rfl

theorem validate_url_ok_iff (u : Url) :
    RequestValidator.validate_url u = .ok () ↔
      (strIsEmpty u.as_str = false ∧
       (strStartsWith u.as_str "http://" = true ∨ strStartsWith u.as_str "https://" = true)) := by
  unfold RequestValidator.validate_url
  by_cases h1 : strIsEmpty u.as_str = true
  · simp [h1]
  · by_cases h2 : strStartsWith u.as_str "http://" = true
    · simp [h1, h2]
    · by_cases h3 : strStartsWith u.as_str "https://" = true
      · simp [h1, h2, h3]
      · simp [h1, h2, h3]

theorem validate_method_body_ok_iff (r : Request) :
    RequestValidator.validate_method_body_combination r = .ok () ↔
      ¬(r.method = Method.get ∧ r.body.isSome = true) := by
  unfold RequestValidator.validate_method_body_combination
  rcases r with ⟨m, u, hs, b⟩
  cases m <;> cases b <;> simp

/-- C3: RequestValidator validate succeeds exactly when the URL string form
is non-empty and starts with http or https, and the request is not a GET
with a body; and whenever the URL rule fails, its error is the one
reported, in particular when both rules fail. -/
theorem validate_spec (r : Request) :
    (RequestValidator.validate r = .ok () ↔
      (strIsEmpty r.url.as_str = false ∧
       (strStartsWith r.url.as_str "http://" = true ∨
        strStartsWith r.url.as_str "https://" = true) ∧
       ¬(r.method = Method.get ∧ r.body.isSome = true))) ∧
    (∀ e e2, RequestValidator.validate_url r.url = .error e →
      RequestValidator.validate_method_body_combination r = .error e2 →
      RequestValidator.validate r = .error e) := by
  constructor
  · rw [validate_as_bind]
    cases hu : RequestValidator.validate_url r.url with
    | error e =>
      have : ¬ (RequestValidator.validate_url r.url = .ok ()) := by simp [hu]
      rw [validate_url_ok_iff] at this
      constructor
      · intro h; cases h
      · intro h
        exact absurd ⟨h.1, h.2.1⟩ this
    | ok v =>
      cases v
      have : (strIsEmpty r.url.as_str = false ∧
        (strStartsWith r.url.as_str "http://" = true ∨
         strStartsWith r.url.as_str "https://" = true)) :=
        (validate_url_ok_iff r.url).mp hu
      simp only [Except.bind]
      rw [validate_method_body_ok_iff]
      constructor
      · intro h; exact ⟨this.1, this.2, h⟩
      · intro h; exact h.2.2
  · intro e e2 hu _
    rw [validate_as_bind, hu]
    rfl

/-- C3 witness: an empty URL on a GET with a body trips both rules and the
URL rule error is the one reported. -/
theorem validate_spec_witness :
    RequestValidator.validate
      { method := Method.get
      , url := ⟨{ scheme := none, host := none, port := none, authority := none, str := "" }⟩
      , headers := [], body := some ⟨"1"⟩ } = .error "URL cannot be empty" :=
  (validate_spec _).2 "URL cannot be empty" "GET requests should not have a body"
    (by decide) (by decide)

/-- C6: the adapted wire request carries the exact stored body bytes when a
body is present and an empty body otherwise, and the adapter inserts the
JSON content type header exactly when a body is present. -/
theorem to_hyper_request_spec (r : Request) :
    (∀ jb, r.body = some jb →
      (RequestAdapter.to_hyper_request r).body = jb.raw ∧
      (RequestAdapter.to_hyper_request r).headers =
        hostHeader r.url.uri ++ [("content-type", "application/json")] ++ r.headers) ∧
    (r.body = none →
      (RequestAdapter.to_hyper_request r).body = "" ∧
      (RequestAdapter.to_hyper_request r).headers = hostHeader r.url.uri ++ r.headers) := by
  constructor
  · intro jb hjb
    simp [RequestAdapter.to_hyper_request, BodyAdapter.to_hyper_body,
      HeaderAdapter.add_json_content_type, HeaderAdapter.add_headers, hjb]
  · intro hnone
    simp [RequestAdapter.to_hyper_request, BodyAdapter.to_hyper_body,
      HeaderAdapter.add_json_content_type, HeaderAdapter.add_headers, hnone]

/-- C6 witness: a POST with body text made of the pair a maps-to 1 in braces
produces that exact wire body and the JSON content type header; the same
request without a body produces an empty wire body and only the Host
header. -/
theorem to_hyper_request_spec_witness :
    (RequestAdapter.to_hyper_request
      { method := .post, url := ⟨sampleUri⟩, headers := [], body := some ⟨"\x7b\"a\":1\x7d"⟩ }).body
        = "\x7b\"a\":1\x7d" ∧
    (RequestAdapter.to_hyper_request
      { method := .post, url := ⟨sampleUri⟩, headers := [], body := some ⟨"\x7b\"a\":1\x7d"⟩ }).headers
        = [("host", "example.com"), ("content-type", "application/json")] ∧
    (RequestAdapter.to_hyper_request
      { method := .post, url := ⟨sampleUri⟩, headers := [], body := none }).body = "" ∧
    (RequestAdapter.to_hyper_request
      { method := .post, url := ⟨sampleUri⟩, headers := [], body := none }).headers
        = [("host", "example.com")] := by
  have h1 := (to_hyper_request_spec
    { method := .post, url := ⟨sampleUri⟩, headers := [], body := some ⟨"\x7b\"a\":1\x7d"⟩ }).1
    ⟨"\x7b\"a\":1\x7d"⟩ rfl
  have h2 := (to_hyper_request_spec
    { method := .post, url := ⟨sampleUri⟩, headers := [], body := none }).2 rfl
  refine ⟨h1.1, ?_, h2.1, ?_⟩
  · rw [h1.2]; decide
  · rw [h2.2]; decide

/-- C7: JsonBody new fails exactly when the text is not valid JSON, and on
success the stored text is the input, unchanged. -/
theorem jsonBody_new_spec (s : String) :
    ((∃ e, JsonBody.new s = .error e) ↔ isValidJson s = false) ∧
    (∀ b, JsonBody.new s = .ok b → b.raw = s) := by
  unfold JsonBody.new
  by_cases h : isValidJson s = true
  · constructor
    · simp [h]
    · intro b hb
      rw [if_pos h] at hb
      cases hb
      rfl
  · constructor
    · simp [h]
    · intro b hb
      rw [if_neg h] at hb
      cases hb

/-- C7 witness: the JSON object text pairing a with 1 is accepted and stored
byte for byte; the text not json is rejected. -/
theorem jsonBody_new_spec_witness :
    (JsonBody.new "\x7b\"a\":1\x7d" = .ok ⟨"\x7b\"a\":1\x7d"⟩ →
      (⟨"\x7b\"a\":1\x7d"⟩ : JsonBody).raw = "\x7b\"a\":1\x7d") ∧
    ((∃ e, JsonBody.new "not json" = .error e) ↔ isValidJson "not json" = false) :=
  ⟨(jsonBody_new_spec "\x7b\"a\":1\x7d").2 ⟨"\x7b\"a\":1\x7d"⟩,
   (jsonBody_new_spec "not json").1⟩

/-- C8: the connection target port is the explicit URL port when present,
else 443 for scheme https and 80 otherwise; a URL without a host fails with
the transport error before any connection attempt. -/
theorem create_connection_spec (connect : String → Nat → Except Err Unit) (uri : Uri) :
    (∀ p, uri.port = some p → resolvePort uri = p) ∧
    (uri.port = none → uri.scheme = some "https" → resolvePort uri = 443) ∧
    (uri.port = none → ¬ uri.scheme = some "https" → resolvePort uri = 80) ∧
    (uri.host = none →
      HyperHttpClient.create_connection connect uri = (.error "No host in URI", 0)) ∧
    (∀ h, uri.host = some h →
      HyperHttpClient.create_connection connect uri = (connect h (resolvePort uri), 1)) := by
  refine ⟨?_, ?_, ?_, ?_, ?_⟩
  · intro p hp; simp [resolvePort, hp]
  · intro hp hs; simp [resolvePort, hp, hs]
  · intro hp hs; simp [resolvePort, hp, hs]
  · intro hh; simp [HyperHttpClient.create_connection, hh]
  · intro h hh; simp [HyperHttpClient.create_connection, hh]

/-- C8 witness: on the sample https URI without explicit port the oracle is
called with example.com and 443; a URI without host fails with zero
connection attempts. -/
theorem create_connection_spec_witness :
    HyperHttpClient.create_connection (fun _ _ => .ok ()) sampleUri = (.ok (), 1) ∧
    resolvePort sampleUri = 443 ∧
    HyperHttpClient.create_connection (fun _ _ => .ok ())
      { scheme := some "http", host := none, port := none, authority := none, str := "http://" }
      = (.error "No host in URI", 0) := by
  refine ⟨?_, ?_, ?_⟩
  · exact (create_connection_spec (fun _ _ => .ok ()) sampleUri).2.2.2.2 "example.com" rfl
  · exact (create_connection_spec (fun _ _ => .ok ()) sampleUri).2.1 rfl rfl
  · exact (create_connection_spec (fun _ _ => .ok ()) _).2.2.2.1 rfl

/-- C9: send_request performs exactly one transport call and returns its
result unchanged when validation succeeds, and returns the validation error
with zero transport calls when validation fails. -/
theorem send_request_spec (send : Request → Except Err Response) (request : Request) :
    (RequestValidator.validate request = .ok () →
      HttpRequestService.send_request send request = (send request, 1)) ∧
    (∀ e, RequestValidator.validate request = .error e →
      HttpRequestService.send_request send request = (.error e, 0)) := by
  constructor
  · intro h; simp [HttpRequestService.send_request, h]
  · intro e h; simp [HttpRequestService.send_request, h]

/-- C9 witness: the sample valid request is sent exactly once and the
transport result is returned unchanged; the empty URL request returns the
validation error with zero transport calls. -/
theorem send_request_spec_witness :
    HttpRequestService.send_request (fun _ => .ok sampleResponse) sampleRequest
      = (.ok sampleResponse, 1) ∧
    HttpRequestService.send_request (fun _ => .ok sampleResponse) emptyUrlRequest
      = (.error "URL cannot be empty", 0) := by
  constructor
  · exact (send_request_spec (fun _ => .ok sampleResponse) sampleRequest).1 (by decide)
  · exact (send_request_spec (fun _ => .ok sampleResponse) emptyUrlRequest).2
      "URL cannot be empty" (by decide)

theorem retryLoop_sends_le (send : Nat → Except Err Response) :
    ∀ rem attempt, (HttpRequestService.retryLoop send attempt rem).2 ≤ rem + 1 := by
  intro rem
  induction rem with
  | zero =>
    intro attempt
    cases h : send attempt <;> simp [HttpRequestService.retryLoop, h]
  | succ rem ih =>
    intro attempt
    cases h : send attempt with
    | ok r => simp [HttpRequestService.retryLoop, h]
    | error e =>
      have := ih (attempt + 1)
      simp [HttpRequestService.retryLoop, h]
      omega

theorem retryLoop_all_fail (send : Nat → Except Err Response) :
    ∀ rem attempt e,
      (∀ j, j < rem → ∃ e2, send (attempt + j) = .error e2) →
      send (attempt + rem) = .error e →
      HttpRequestService.retryLoop send attempt rem = (.error e, rem + 1) := by
  intro rem
  induction rem with
  | zero =>
    intro attempt e _ hlast
    have h0 : send attempt = .error e := by simpa using hlast
    simp [HttpRequestService.retryLoop, h0]
  | succ rem ih =>
    intro attempt e hfail hlast
    obtain ⟨e0, he0⟩ := hfail 0 (Nat.succ_pos rem)
    have h0 : send attempt = .error e0 := by simpa using he0
    have hrec := ih (attempt + 1) e
      (fun j hj => by
        have h := hfail (j + 1) (Nat.succ_lt_succ hj)
        rwa [show attempt + (j + 1) = attempt + 1 + j by omega] at h)
      (by rwa [show attempt + 1 + rem = attempt + (rem + 1) by omega])
    simp [HttpRequestService.retryLoop, h0, hrec]

theorem retryLoop_success (send : Nat → Except Err Response) :
    ∀ k rem attempt resp, k ≤ rem →
      (∀ j, j < k → ∃ e, send (attempt + j) = .error e) →
      send (attempt + k) = .ok resp →
      HttpRequestService.retryLoop send attempt rem = (.ok resp, k + 1) := by
  intro k
  induction k with
  | zero =>
    intro rem attempt resp _ _ hok
    have h0 : send attempt = .ok resp := by simpa using hok
    cases rem <;> simp [HttpRequestService.retryLoop, h0]
  | succ k ih =>
    intro rem attempt resp hkrem hfail hok
    obtain ⟨rem2, rfl⟩ : ∃ rem2, rem = rem2 + 1 := ⟨rem - 1, by omega⟩
    obtain ⟨e0, he0⟩ := hfail 0 (Nat.succ_pos k)
    have h0 : send attempt = .error e0 := by simpa using he0
    have hrec := ih rem2 (attempt + 1) resp (by omega)
      (fun j hj => by
        have h := hfail (j + 1) (Nat.succ_lt_succ hj)
        rwa [show attempt + (j + 1) = attempt + 1 + j by omega] at h)
      (by rwa [show attempt + 1 + k = attempt + (k + 1) by omega])
    simp [HttpRequestService.retryLoop, h0, hrec]

/-- C1: send_with_retry makes at most max_retries + 1 transport calls;
validation runs before any attempt, so a validation failure means zero
calls; when the transport fails the first k attempts and succeeds on the
next one that success is returned after k + 1 calls; and when every attempt
fails the error of the last attempt is returned after exactly
max_retries + 1 calls. -/
theorem send_with_retry_spec (send : Nat → Request → Except Err Response)
    (request : Request) (n : Nat) :
    (HttpRequestService.send_with_retry send request n).2 ≤ n + 1 ∧
    (∀ e, RequestValidator.validate request = .error e →
      HttpRequestService.send_with_retry send request n = (.error e, 0)) ∧
    (RequestValidator.validate request = .ok () →
      (∀ k resp, k ≤ n → (∀ i, i < k → ∃ e, send i request = .error e) →
        send k request = .ok resp →
        HttpRequestService.send_with_retry send request n = (.ok resp, k + 1)) ∧
      (∀ e, (∀ i, i < n → ∃ e2, send i request = .error e2) →
        send n request = .error e →
        HttpRequestService.send_with_retry send request n = (.error e, n + 1))) := by
  refine ⟨?_, ?_, ?_⟩
  · unfold HttpRequestService.send_with_retry
    cases h : RequestValidator.validate request with
    | error e => simp
    | ok v =>
      cases v
      simpa using retryLoop_sends_le (fun i => send i request) n 0
  · intro e he
    simp [HttpRequestService.send_with_retry, he]
  · intro hv
    constructor
    · intro k resp hk hfail hok
      simp only [HttpRequestService.send_with_retry, hv]
      apply retryLoop_success (fun i => send i request) k n 0 resp hk
      · intro j hj
        simpa using hfail j hj
      · simpa using hok
    · intro e hfail hlast
      simp only [HttpRequestService.send_with_retry, hv]
      apply retryLoop_all_fail (fun i => send i request) n 0 e
      · intro j hj
        simpa using hfail j hj
      · simpa using hlast

/-- C1 witness: with a transport that fails on attempt 0 and succeeds on
attempt 1, two allowed retries return the success after 2 calls. -/
theorem send_with_retry_spec_witness :
    HttpRequestService.send_with_retry flakySend sampleRequest 2 = (.ok sampleResponse, 2) :=
  ((send_with_retry_spec flakySend sampleRequest 2).2.2 (by decide)).1 1 sampleResponse
    (by omega)
    (fun i hi => by
      have h0 : i = 0 := by omega
      subst h0
      exact ⟨"Network error", rfl⟩)
    rfl

theorem validateAll_append_error : ∀ (pre : List Request) (r : Request)
    (post : List Request) (e : Err),
    (∀ p ∈ pre, RequestValidator.validate p = .ok ()) →
    RequestValidator.validate r = .error e →
    HttpRequestService.validateAll (pre ++ r :: post) = .error e := by
  intro pre
  induction pre with
  | nil =>
    intro r post e _ hr
    simp [HttpRequestService.validateAll, hr]
  | cons p ps ih =>
    intro r post e hpre hr
    have hp : RequestValidator.validate p = .ok () := hpre p (List.mem_cons_self p ps)
    simp only [List.cons_append, HttpRequestService.validateAll, hp]
    exact ih r post e (fun q hq => hpre q (List.mem_cons_of_mem p hq)) hr

/-- C2: send_batch validates every request before any transport call: if a
request fails validation, with all requests before it valid, that
validation error is returned and the transport is called zero times. -/
theorem sendBatch_validation_spec (send : Request → Except Err Response)
    (completionOrder : List Nat) (pre : List Request) (r : Request)
    (post : List Request) (e : Err)
    (hpre : ∀ p ∈ pre, RequestValidator.validate p = .ok ())
    (hr : RequestValidator.validate r = .error e) :
    HttpRequestService.send_batch send completionOrder (pre ++ r :: post) = (.error e, 0) := by
  have h := validateAll_append_error pre r post e hpre hr
  simp [HttpRequestService.send_batch, h]

/-- C2 witness: the empty URL request placed among two valid requests
aborts the whole batch with the validation error and zero transport
calls. -/
theorem sendBatch_validation_spec_witness :
    HttpRequestService.send_batch (fun _ => .ok sampleResponse) []
      ([sampleRequest] ++ emptyUrlRequest :: [sampleRequest])
      = (.error "URL cannot be empty", 0) :=
  sendBatch_validation_spec (fun _ => .ok sampleResponse) [] [sampleRequest]
    emptyUrlRequest [sampleRequest] "URL cannot be empty"
    (fun p hp => by
      have h0 : p = sampleRequest := by simpa using hp
      subst h0
      decide)
    (by decide)

theorem validateAll_ok : ∀ reqs : List Request,
    (∀ r ∈ reqs, RequestValidator.validate r = .ok ()) →
    HttpRequestService.validateAll reqs = .ok () := by
  intro reqs
  induction reqs with
  | nil => intro _; rfl
  | cons r rest ih =>
    intro h
    have hr := h r (List.mem_cons_self r rest)
    simp only [HttpRequestService.validateAll, hr]
    exact ih (fun q hq => h q (List.mem_cons_of_mem r hq))

theorem collectOk_map (f : Request → Response) (send : Request → Except Err Response) :
    ∀ reqs : List Request,
    (∀ r ∈ reqs, send r = .ok (f r)) →
    collectOk (reqs.map send) = .ok (reqs.map f) := by
  intro reqs
  induction reqs with
  | nil => intro _; rfl
  | cons r rest ih =>
    intro h
    have hr := h r (List.mem_cons_self r rest)
    simp only [List.map_cons, collectOk, hr]
    rw [ih (fun q hq => h q (List.mem_cons_of_mem r hq))]
    rfl

theorem firstErrorIn_none (results : List (Except Err Response))
    (h : ∀ x ∈ results, ∃ resp, x = .ok resp) :
    ∀ order, firstErrorIn results order = none := by
  intro order
  induction order with
  | nil => rfl
  | cons i rest ih =>
    unfold firstErrorIn
    cases hg : results.get? i with
    | none => exact ih
    | some x =>
      obtain ⟨resp, hx⟩ := h x (List.get?_mem hg)
      subst hx
      exact ih

/-- C4: when every request validates and every transport send succeeds,
send_batch returns the responses in the order of the input requests, for
every completion order of the concurrent sends. -/
theorem sendBatch_order_spec (send : Request → Except Err Response) (f : Request → Response)
    (reqs : List Request) (completionOrder : List Nat)
    (hvalid : ∀ r ∈ reqs, RequestValidator.validate r = .ok ())
    (hsend : ∀ r ∈ reqs, send r = .ok (f r)) :
    HttpRequestService.send_batch send completionOrder reqs
      = (.ok (reqs.map f), reqs.length) := by
  have hva := validateAll_ok reqs hvalid
  have hfe : firstErrorIn (reqs.map send) completionOrder = none := by
    apply firstErrorIn_none
    intro x hx
    obtain ⟨r, hr, rfl⟩ := List.mem_map.mp hx
    exact ⟨f r, hsend r hr⟩
  have hco := collectOk_map f send reqs hsend
  simp [HttpRequestService.send_batch, hva, tryJoinAll, hfe, hco]

/-- C4 witness: two valid requests, with the second completing first,
produce the two responses in input order after two transport calls. -/
theorem sendBatch_order_spec_witness :
    HttpRequestService.send_batch (fun r => .ok { status := 200, body := r.url.as_str })
      [1, 0] [sampleRequest, sampleRequest2]
      = (.ok [{ status := 200, body := "https://example.com/" },
              { status := 200, body := "http://example.org/" }], 2) := by
  have h := sendBatch_order_spec (fun r => .ok { status := 200, body := r.url.as_str })
    (fun r => { status := 200, body := r.url.as_str }) [sampleRequest, sampleRequest2] [1, 0]
    (by
      intro r hr
      simp only [List.mem_cons, List.not_mem_nil, or_false] at hr
      rcases hr with rfl | rfl
      · decide
      · decide)
    (fun r _ => rfl)
  exact h

theorem hashMapInsert_keys_nodup (m : List (String × String)) (k v : String)
    (h : (m.map Prod.fst).Nodup) : ((hashMapInsert m k v).map Prod.fst).Nodup := by
  unfold hashMapInsert
  by_cases ha : m.any (fun p => p.1 = k) = true
  · rw [if_pos ha]
    have heq : (m.map (fun p => if p.1 = k then (k, v) else p)).map Prod.fst
        = m.map Prod.fst := by
      rw [List.map_map]
      apply List.map_congr_left
      intro p _
      by_cases hp : p.1 = k
      · simp [hp]
      · simp [hp]
    rw [heq]
    exact h
  · rw [if_neg ha]
    rw [List.map_append]
    refine List.Nodup.append h (by simp) ?_
    intro a ha1 ha2
    simp only [List.map_cons, List.map_nil, List.mem_singleton] at ha2
    subst ha2
    apply ha
    rw [List.any_eq_true]
    obtain ⟨p, hp, hfst⟩ := List.mem_map.mp ha1
    exact ⟨p, hp, by simp [hfst]⟩

theorem hashMapInsert_mem (m : List (String × String)) (k v k2 v2 : String)
    (_h : (m.map Prod.fst).Nodup) :
    ((k2, v2) ∈ hashMapInsert m k v ↔
      ((k2 = k ∧ v2 = v) ∨ (k2 ≠ k ∧ (k2, v2) ∈ m))) := by
  unfold hashMapInsert
  by_cases ha : m.any (fun p => p.1 = k) = true
  · rw [if_pos ha]
    rw [List.mem_map]
    constructor
    · rintro ⟨p, hp, heq⟩
      by_cases hpk : p.1 = k
      · rw [if_pos hpk] at heq
        cases heq
        exact Or.inl ⟨rfl, rfl⟩
      · rw [if_neg hpk] at heq
        subst heq
        exact Or.inr ⟨hpk, hp⟩
    · rintro (⟨rfl, rfl⟩ | ⟨hne, hmem⟩)
      · rw [List.any_eq_true] at ha
        obtain ⟨p, hp, hpk⟩ := ha
        have hpk2 : p.1 = k2 := by simpa using hpk
        exact ⟨p, hp, by rw [if_pos hpk2]⟩
      · exact ⟨(k2, v2), hmem, by rw [if_neg hne]⟩
  · rw [if_neg ha]
    rw [List.mem_append, List.mem_singleton]
    constructor
    · rintro (hmem | heq)
      · refine Or.inr ⟨?_, hmem⟩
        intro hkk
        apply ha
        rw [List.any_eq_true]
        exact ⟨(k2, v2), hmem, by simp [hkk]⟩
      · cases heq
        exact Or.inl ⟨rfl, rfl⟩
    · rintro (⟨rfl, rfl⟩ | ⟨_, hmem⟩)
      · exact Or.inr rfl
      · exact Or.inl hmem

theorem addHeaders_invariant : ∀ (raws : List String) (m0 m : List (String × String)),
    (m0.map Prod.fst).Nodup →
    RequestBuilder.addHeaders m0 raws = .ok m →
    (m.map Prod.fst).Nodup ∧
    ∀ k v, ((k, v) ∈ m ↔
      (lastValueFor raws k = some v ∨ (lastValueFor raws k = none ∧ (k, v) ∈ m0))) := by
  intro raws
  induction raws with
  | nil =>
    intro m0 m h0 heq
    have hm : m0 = m := by
      simpa [RequestBuilder.addHeaders] using heq
    subst hm
    refine ⟨h0, ?_⟩
    intro k v
    simp [lastValueFor]
  | cons raw rest ih =>
    intro m0 m h0 heq
    unfold RequestBuilder.addHeaders at heq
    cases hsp : splitFirstColon raw.data with
    | none =>
      rw [hsp] at heq
      cases heq
    | some ab =>
      obtain ⟨a, b⟩ := ab
      rw [hsp] at heq
      have h1 : ((hashMapInsert m0 (strTrim ⟨a⟩) (strTrim ⟨b⟩)).map Prod.fst).Nodup :=
        hashMapInsert_keys_nodup m0 (strTrim ⟨a⟩) (strTrim ⟨b⟩) h0
      obtain ⟨hnd, hmem⟩ := ih (hashMapInsert m0 (strTrim ⟨a⟩) (strTrim ⟨b⟩)) m h1 heq
      refine ⟨hnd, ?_⟩
      intro k v
      rw [hmem k v,
        hashMapInsert_mem m0 (strTrim ⟨a⟩) (strTrim ⟨b⟩) k v h0]
      simp only [lastValueFor, hsp]
      cases hrest : lastValueFor rest k with
      | some v0 =>
        simp only [hrest]
        constructor
        · rintro (hv | ⟨hnone, _⟩)
          · exact Or.inl hv
          · cases hnone
        · rintro (hv | ⟨hnone, _⟩)
          · exact Or.inl hv
          · cases hnone
      | none =>
        by_cases hk : strTrim ⟨a⟩ = k
        · simp only [hrest, if_pos hk]
          constructor
          · rintro (hv | ⟨_, ⟨hkk, hvv⟩ | ⟨hne, _⟩⟩)
            · cases hv
            · exact Or.inl (by rw [hvv])
            · exact absurd hk.symm hne
          · rintro (hv | ⟨hnone, _⟩)
            · have hvv : v = strTrim ⟨b⟩ := by
                injection hv with hv2
                exact hv2.symm
              exact Or.inr ⟨trivial, Or.inl ⟨hk.symm, hvv⟩⟩
            · cases hnone
        · simp only [hrest, if_neg hk]
          constructor
          · rintro (hv | ⟨_, ⟨hkk, _⟩ | ⟨_, hmm⟩⟩)
            · cases hv
            · exact absurd hkk.symm hk
            · exact Or.inr ⟨trivial, hmm⟩
          · rintro (hv | ⟨_, hmm⟩)
            · cases hv
            · refine Or.inr ⟨trivial, Or.inr ⟨?_, hmm⟩⟩
              intro hkk
              exact hk hkk.symm

/-- C5 counterexample: two header strings with the same name A collapse to
the single pair with the last value, so the pair ("A", "1") does not appear
in the built request headers at all, refuting insertion-order preservation
with duplicates retained. -/
theorem builder_headers_counterexample :
    (RequestBuilder.withHeaders
      { method := some Method.get, url := some ⟨sampleUri⟩, headers := [], body := none }
      ["A: 1", "A: 2"]).map
        (fun b => (RequestBuilder.build b).map Request.headers)
      = .ok (some [("A", "2")]) ∧
    ¬ ((RequestBuilder.withHeaders
      { method := some Method.get, url := some ⟨sampleUri⟩, headers := [], body := none }
      ["A: 1", "A: 2"]).map
        (fun b => (RequestBuilder.build b).map Request.headers)
      = .ok (some [("A", "1"), ("A", "2")])) := by
  constructor
  · decide
  · decide

/-- C5 amended: header strings are parsed as name colon value with both
parts trimmed and collected into a hash map, so the built request carries
at most one header per name, holding the last value supplied for that name,
in an unspecified order; duplicates are collapsed, not retained. -/
theorem builder_headers_amended_spec (raws : List String) (b2 : RequestBuilder)
    (h : RequestBuilder.withHeaders RequestBuilder.new raws = .ok b2) :
    (b2.headers.map Prod.fst).Nodup ∧
    (∀ k v, ((k, v) ∈ b2.headers ↔ lastValueFor raws k = some v)) ∧
    (∀ m u, RequestBuilder.build { b2 with method := some m, url := some u }
      = some { method := m, url := u, headers := b2.headers, body := b2.body }) := by
  have hadd : RequestBuilder.addHeaders [] raws = .ok b2.headers := by
    unfold RequestBuilder.withHeaders at h
    cases hres : RequestBuilder.addHeaders RequestBuilder.new.headers raws with
    | error e =>
      rw [hres] at h
      cases h
    | ok m =>
      rw [hres] at h
      cases h
      exact hres
  obtain ⟨hnd, hmem⟩ := addHeaders_invariant raws [] b2.headers (by simp) hadd
  refine ⟨hnd, ?_, ?_⟩
  · intro k v
    rw [hmem k v]
    simp
  · intro m u
    rfl

/-- C5 amended witness: of three header strings where the name X-One occurs
twice, the entry kept for X-One holds the last value c. -/
theorem builder_headers_amended_spec_witness :
    ("X-One", "c") ∈
      ({ method := none, url := none, headers := [("X-One", "c"), ("X-Two", "b")]
       , body := none } : RequestBuilder).headers ↔
    lastValueFor ["X-One: a", "X-Two: b", "X-One: c"] "X-One" = some "c" :=
  ((builder_headers_amended_spec ["X-One: a", "X-Two: b", "X-One: c"]
    { method := none, url := none, headers := [("X-One", "c"), ("X-Two", "b")], body := none }
    (by decide)).2.1 "X-One" "c")

/-- C10: with max_retries zero, send_with_retry agrees with send_request on
the result and on the number of transport calls, for every request and
every transport behavior. -/
theorem send_with_retry_zero_spec (send : Nat → Request → Except Err Response)
    (request : Request) :
    HttpRequestService.send_with_retry send request 0 =
      HttpRequestService.send_request (send 0) request := by
  unfold HttpRequestService.send_with_retry HttpRequestService.send_request
  cases RequestValidator.validate request with
  | error e => rfl
  | ok v =>
    cases v
    show HttpRequestService.retryLoop (fun n => send n request) 0 0 = (send 0 request, 1)
    unfold HttpRequestService.retryLoop
    cases h : send 0 request <;> simp
